import Mathlib

/-!
# Verification of the streamcable binary serialization codec

This development shallowly embeds the core of the streamcable TypeScript
library (schema-driven binary serialization with streaming support) and
proves or refutes the specification claims about it.

Numbers in the source are JavaScript doubles; every value that reaches a
bitwise operator is an integer, and JavaScript applies `ToInt32`/`ToUint32`
(truncation to 32 bits) to the operands of `&`, `|`, `^`, `<<`, `>>` and
`>>>`, and reduces shift counts modulo 32.  The model below reflects those
semantics on `Int`/`Nat`.  Buffers (`Uint8Array`) are modelled as
`List Nat`; an indexed store out of bounds is silently ignored (TypedArray
semantics), which `List.set` matches, while `TypedArray.prototype.set`
throws `RangeError` on overflow, which is modelled with `Option`.
-/

/-- JS `ToUint8` as applied by a `Uint8Array` element store (operands here
are always integral doubles). -/
def toUint8 (n : Int) : Nat := (n % 256).toNat

/-- JS `ToUint32` on an integral double. -/
def toUint32 (n : Int) : Nat := (n % 4294967296).toNat

/-- JS `ToInt32` on an integral double. -/
def toInt32 (n : Int) : Int :=
  if toUint32 n < 2147483648 then (toUint32 n : Int) else (toUint32 n : Int) - 4294967296

/-- JS `a << k` (shift count is reduced mod 32). -/
def jsShl (a : Int) (k : Nat) : Int := toInt32 ((toUint32 a * 2 ^ (k % 32) : Nat) : Int)

/-- JS `a >> k`: arithmetic (floor) shift of the 32-bit truncation. -/
def jsShr (a : Int) (k : Nat) : Int := (toInt32 a).fdiv (2 ^ (k % 32))

/-- JS `a >>> b` where the shift count may itself be a computed double. -/
def jsShrU (a : Int) (b : Int) : Nat := toUint32 a / 2 ^ (toUint32 b % 32)

/-- JS `a & b`. -/
def jsAnd (a b : Int) : Int := toInt32 ((toUint32 a &&& toUint32 b : Nat) : Int)

/-- JS `a | b`. -/
def jsOr (a b : Int) : Int := toInt32 ((toUint32 a ||| toUint32 b : Nat) : Int)

/-- JS `a ^ b`. -/
def jsXor (a b : Int) : Int := toInt32 ((toUint32 a ^^^ toUint32 b : Nat) : Int)

/-- `getRollingUintSize` from the schema module: `none` models the thrown
`Error("Data must be a non-negative integer")`. -/
def getRollingUintSize (data : Int) : Option Nat :=
  if data < 0 then none
  else if data < 0xfd then some 1
  else if data ≤ 0xffff then some 3
  else if data ≤ 0xffffffff then some 5
  else some 9

/-- `writeRollingUintNoAlloc(data, u8a, pos)`: writes the rolling-uint
encoding of `data` into the buffer at `pos` and returns the new position.
Each element store applies `ToUint8`; stores past the end of the buffer are
ignored, as for a `Uint8Array`. -/
def writeRollingUintNoAlloc (data : Int) (u8a : List Nat) (pos : Nat) :
    Option (List Nat × Nat) :=
  if data < 0 then none
  else if data < 0xfd then some (u8a.set pos (toUint8 data), pos + 1)
  else if data ≤ 0xffff then
    let a0 := u8a.set pos 0xfd
    let a1 := a0.set (pos+1) (toUint8 (jsAnd data 0xff))
    let a2 := a1.set (pos+2) (toUint8 (jsAnd (jsShr data 8) 0xff))
    some (a2, pos + 3)
  else if data ≤ 0xffffffff then
    let a0 := u8a.set pos 0xfe
    let a1 := a0.set (pos+1) (toUint8 (jsAnd data 0xff))
    let a2 := a1.set (pos+2) (toUint8 (jsAnd (jsShr data 8) 0xff))
    let a3 := a2.set (pos+3) (toUint8 (jsAnd (jsShr data 16) 0xff))
    let a4 := a3.set (pos+4) (toUint8 (jsAnd (jsShr data 24) 0xff))
    some (a4, pos + 5)
  else
    let a0 := u8a.set pos 0xff
    let a1 := a0.set (pos+1) (toUint8 (jsAnd data 0xff))
    let a2 := a1.set (pos+2) (toUint8 (jsAnd (jsShr data 8) 0xff))
    let a3 := a2.set (pos+3) (toUint8 (jsAnd (jsShr data 16) 0xff))
    let a4 := a3.set (pos+4) (toUint8 (jsAnd (jsShr data 24) 0xff))
    let a5 := a4.set (pos+5) (toUint8 (jsAnd (jsShr data 32) 0xff))
    let a6 := a5.set (pos+6) (toUint8 (jsAnd (jsShr data 40) 0xff))
    let a7 := a6.set (pos+7) (toUint8 (jsAnd (jsShr data 48) 0xff))
    let a8 := a7.set (pos+8) (toUint8 (jsAnd (jsShr data 56) 0xff))
    some (a8, pos + 9)

/-- The byte string produced for one rolling uint: the callers allocate a
zero-filled buffer of exactly `getRollingUintSize` bytes and write at
position 0. -/
def writeRollingUint (data : Int) : Option (List Nat) :=
  (getRollingUintSize data).bind fun sz =>
    (writeRollingUintNoAlloc data (List.replicate sz 0) 0).map Prod.fst

/-- `readRollingUintNoAlloc` over a byte list (`readByte`/`readBytes` of the
read context deliver these bytes in order; `none` models `OutOfDataError`).
In the five- and nine-byte branches the parenthesisation of the source is
kept: in the nine-byte branch `>>> 0 + ...` parses in JS as a shift whose
count is the whole sum `0 + bytes[4]*2^32 + ... + bytes[7]*2^56` (the float
additions are exact for byte operands, so integer arithmetic is faithful). -/
def readRollingUint : List Nat → Option (Nat × List Nat)
  | [] => none
  | firstByte :: rest =>
    if firstByte < 0xfd then some (firstByte, rest)
    else if firstByte = 0xfd then
      match rest with
      | b0 :: b1 :: rest => some ((jsOr (b0 : Int) (jsShl (b1 : Int) 8)).toNat, rest)
      | _ => none
    else if firstByte = 0xfe then
      match rest with
      | b0 :: b1 :: b2 :: b3 :: rest =>
        some (jsShrU (jsOr (jsOr (jsOr (b0 : Int) (jsShl (b1 : Int) 8))
          (jsShl (b2 : Int) 16)) (jsShl (b3 : Int) 24)) 0, rest)
      | _ => none
    else
      match rest with
      | b0 :: b1 :: b2 :: b3 :: b4 :: b5 :: b6 :: b7 :: rest =>
        some (jsShrU ((b0 : Int) + jsShl (b1 : Int) 8 + jsShl (b2 : Int) 16 + jsShl (b3 : Int) 24)
          (0 + (b4 : Int) * 4294967296 + (b5 : Int) * 1099511627776
            + (b6 : Int) * 281474976710656 + (b7 : Int) * 72057594037927936), rest)
      | _ => none

theorem toUint32_lt (n : Int) : toUint32 n < 4294967296 := by
  unfold toUint32; omega

theorem toUint32_natCast (v : Nat) (h : v < 4294967296) : toUint32 (v : Int) = v := by
  unfold toUint32; omega

theorem toUint32_toInt32 (a : Int) : toUint32 (toInt32 a) = toUint32 a := by
  unfold toInt32 toUint32; split <;> omega

theorem toInt32_natCast (v : Nat) (h : v < 2147483648) : toInt32 (v : Int) = v := by
  unfold toInt32 toUint32; omega

theorem toUint32_jsOr (a b : Int) : toUint32 (jsOr a b) = toUint32 a ||| toUint32 b := by
  unfold jsOr
  rw [toUint32_toInt32, toUint32_natCast]
  have h2 : (2 : Nat) ^ 32 = 4294967296 := by norm_num
  have ha := toUint32_lt a
  have hb := toUint32_lt b
  have h := Nat.or_lt_two_pow (n := 32) (x := toUint32 a) (y := toUint32 b) (by omega) (by omega)
  omega

theorem toUint32_jsShl8 (b : Nat) (hb : b < 256) : toUint32 (jsShl (b : Int) 8) = 256 * b := by
  unfold jsShl
  rw [toUint32_toInt32, toUint32_natCast b (by omega)]
  rw [show (2 : Nat) ^ (8 % 32) = 256 from by norm_num]
  rw [toUint32_natCast (b * 256) (by omega)]
  omega

theorem toUint32_jsShl16 (b : Nat) (hb : b < 256) :
    toUint32 (jsShl (b : Int) 16) = 65536 * b := by
  unfold jsShl
  rw [toUint32_toInt32, toUint32_natCast b (by omega)]
  rw [show (2 : Nat) ^ (16 % 32) = 65536 from by norm_num]
  rw [toUint32_natCast (b * 65536) (by omega)]
  omega

theorem toUint32_jsShl24 (b : Nat) (hb : b < 256) :
    toUint32 (jsShl (b : Int) 24) = 16777216 * b := by
  unfold jsShl
  rw [toUint32_toInt32, toUint32_natCast b (by omega)]
  rw [show (2 : Nat) ^ (24 % 32) = 16777216 from by norm_num]
  rw [toUint32_natCast (b * 16777216) (by omega)]
  omega

theorem toUint32_255 : toUint32 (255 : Int) = 255 := by
  unfold toUint32; omega

theorem toUint8_jsAnd_byte0 (v : Nat) (hv : v < 4294967296) :
    toUint8 (jsAnd (v : Int) 255) = v % 256 := by
  unfold toUint8 jsAnd
  rw [toUint32_natCast v hv, toUint32_255]
  rw [show (255 : Nat) = 2 ^ 8 - 1 from rfl, Nat.and_pow_two_sub_one_eq_mod]
  rw [show (2 : Nat) ^ 8 = 256 from rfl]
  rw [toInt32_natCast (v % 256) (by omega)]
  omega

theorem jsShr_byte (v : Nat) (hv : v < 4294967296) (k p q : Nat)
    (hp : (2 : Int) ^ (k % 32) = (p : Int)) (hq : p * q = 4294967296) (hp0 : 0 < p) :
    jsShr (v : Int) k = ((v / p : Nat) : Int) - (if v < 2147483648 then 0 else (q : Int)) := by
  unfold jsShr toInt32
  rw [toUint32_natCast v hv, hp]
  rw [Int.fdiv_eq_ediv _ (by positivity)]
  have hdiv : (v : Int) / (p : Int) = ((v / p : Nat) : Int) := (Int.ofNat_ediv v p).symm
  split <;> rename_i hc
  · rw [hdiv]
    ring
  · have hsub : (v : Int) - 4294967296 = (v : Int) + (-(q : Int)) * (p : Int) := by
      have hpq : ((p : Int) * (q : Int)) = 4294967296 := by
        rw [show ((p : Int) * (q : Int)) = ((p * q : Nat) : Int) from by push_cast; ring, hq]
        rfl
      nlinarith [hpq]
    rw [hsub, Int.add_mul_ediv_right _ _ (by omega), hdiv]
    ring

theorem toUint8_jsAnd_jsShr_byte (v : Nat) (hv : v < 4294967296) (k p q : Nat)
    (hp : (2 : Int) ^ (k % 32) = (p : Int)) (hq : p * q = 4294967296) (hp0 : 0 < p)
    (hq255 : 256 ∣ q) :
    toUint8 (jsAnd (jsShr (v : Int) k) 255) = v / p % 256 := by
  have hq0 : 0 < q := by
    rcases Nat.eq_zero_or_pos q with h | h
    · subst h; simp at hq
    · exact h
  have hqle : q ≤ 4294967296 := by
    have h1q : 1 * q ≤ p * q := Nat.mul_le_mul_right q hp0
    rw [one_mul, hq] at h1q
    exact h1q
  have hvp : v / p < q := by
    rw [Nat.div_lt_iff_lt_mul hp0]
    calc v < 4294967296 := hv
      _ = q * p := by rw [Nat.mul_comm, hq]
  rw [jsShr_byte v hv k p q hp hq hp0]
  generalize hgen : v / p = w at hvp ⊢
  unfold toUint8 jsAnd
  obtain ⟨j, hj⟩ := hq255
  by_cases hsmall : v < 2147483648
  · rw [if_pos hsmall]
    rw [show ((w : Nat) : Int) - 0 = ((w : Nat) : Int) from by ring]
    rw [toUint32_natCast w (by omega), toUint32_255]
    rw [show (255 : Nat) = 2 ^ 8 - 1 from rfl, Nat.and_pow_two_sub_one_eq_mod]
    rw [show (2 : Nat) ^ 8 = 256 from rfl]
    rw [toInt32_natCast (w % 256) (by omega)]
    omega
  · rw [if_neg hsmall]
    have hval : toUint32 (((w : Nat) : Int) - (q : Int)) = w + (4294967296 - q) := by
      unfold toUint32
      omega
    rw [hval, toUint32_255]
    have hrw : w + (4294967296 - q) = w + 256 * (16777216 - j) := by omega
    rw [hrw, show (255 : Nat) = 2 ^ 8 - 1 from rfl, Nat.and_pow_two_sub_one_eq_mod]
    rw [show (2 : Nat) ^ 8 = 256 from rfl, Nat.add_mul_mod_self_left]
    rw [toInt32_natCast (w % 256) (by omega)]
    omega

theorem or_add8 (a b : Nat) (ha : a < 256) : a ||| 256 * b = a + 256 * b := by
  rw [Nat.or_comm, show (256 : Nat) = 2 ^ 8 from rfl,
    ← Nat.mul_add_lt_is_or (show a < 2 ^ 8 from ha) b]
  ring

theorem or_add16 (a b : Nat) (ha : a < 65536) : a ||| 65536 * b = a + 65536 * b := by
  rw [Nat.or_comm, show (65536 : Nat) = 2 ^ 16 from rfl,
    ← Nat.mul_add_lt_is_or (show a < 2 ^ 16 from ha) b]
  ring

theorem or_add24 (a b : Nat) (ha : a < 16777216) : a ||| 16777216 * b = a + 16777216 * b := by
  rw [Nat.or_comm, show (16777216 : Nat) = 2 ^ 24 from rfl,
    ← Nat.mul_add_lt_is_or (show a < 2 ^ 24 from ha) b]
  ring

theorem readTwoBytes (b0 b1 : Nat) (h0 : b0 < 256) (h1 : b1 < 256) :
    (jsOr (b0 : Int) (jsShl (b1 : Int) 8)).toNat = b0 + 256 * b1 := by
  unfold jsOr
  rw [toUint32_natCast b0 (by omega), toUint32_jsShl8 b1 h1]
  rw [or_add8 b0 b1 h0, toInt32_natCast (b0 + 256 * b1) (by omega)]
  omega

theorem readFourBytes (b0 b1 b2 b3 : Nat) (h0 : b0 < 256) (h1 : b1 < 256)
    (h2 : b2 < 256) (h3 : b3 < 256) :
    jsShrU (jsOr (jsOr (jsOr (b0 : Int) (jsShl (b1 : Int) 8)) (jsShl (b2 : Int) 16))
      (jsShl (b3 : Int) 24)) 0 = b0 + 256 * b1 + 65536 * b2 + 16777216 * b3 := by
  unfold jsShrU
  rw [show toUint32 (0 : Int) = 0 from rfl]
  simp only [Nat.zero_mod, pow_zero, Nat.div_one]
  rw [toUint32_jsOr, toUint32_jsOr, toUint32_jsOr]
  rw [toUint32_natCast b0 (by omega), toUint32_jsShl8 b1 h1, toUint32_jsShl16 b2 h2,
    toUint32_jsShl24 b3 h3]
  rw [or_add8 b0 b1 h0, or_add16 (b0 + 256 * b1) b2 (by omega),
    or_add24 (b0 + 256 * b1 + 65536 * b2) b3 (by omega)]

theorem writeRollingUint_one (v : Nat) (h : v < 253) :
    writeRollingUint (v : Int) = some [v] := by
  have h0 : ¬ ((v : Int) < 0) := by omega
  have h1 : (v : Int) < 253 := by omega
  simp only [writeRollingUint, getRollingUintSize, writeRollingUintNoAlloc, if_neg h0,
    if_pos h1, Option.some_bind, Option.map_some']
  show some [toUint8 (v : Int)] = some [v]
  simp only [toUint8, Option.some.injEq, List.cons.injEq, and_true]
  omega

theorem writeRollingUint_three (v : Nat) (h1 : ¬ v < 253) (h2 : v ≤ 65535) :
    writeRollingUint (v : Int) = some [253, v % 256, v / 256 % 256] := by
  have i0 : ¬ ((v : Int) < 0) := by omega
  have i1 : ¬ ((v : Int) < 253) := by omega
  have i2 : (v : Int) ≤ 65535 := by omega
  simp only [writeRollingUint, getRollingUintSize, writeRollingUintNoAlloc, if_neg i0,
    if_neg i1, if_pos i2, Option.some_bind, Option.map_some']
  show some [253, toUint8 (jsAnd (v : Int) 255), toUint8 (jsAnd (jsShr (v : Int) 8) 255)]
    = some [253, v % 256, v / 256 % 256]
  rw [toUint8_jsAnd_byte0 v (by omega),
    toUint8_jsAnd_jsShr_byte v (by omega) 8 256 16777216 (by norm_num) (by norm_num)
      (by norm_num) (by norm_num)]

theorem writeRollingUint_five (v : Nat) (h2 : ¬ v ≤ 65535) (h3 : v ≤ 4294967295) :
    writeRollingUint (v : Int) =
      some [254, v % 256, v / 256 % 256, v / 65536 % 256, v / 16777216 % 256] := by
  have i0 : ¬ ((v : Int) < 0) := by omega
  have i1 : ¬ ((v : Int) < 253) := by omega
  have i2 : ¬ ((v : Int) ≤ 65535) := by omega
  have i3 : (v : Int) ≤ 4294967295 := by omega
  simp only [writeRollingUint, getRollingUintSize, writeRollingUintNoAlloc, if_neg i0,
    if_neg i1, if_neg i2, if_pos i3, Option.some_bind, Option.map_some']
  show some [254, toUint8 (jsAnd (v : Int) 255), toUint8 (jsAnd (jsShr (v : Int) 8) 255),
      toUint8 (jsAnd (jsShr (v : Int) 16) 255), toUint8 (jsAnd (jsShr (v : Int) 24) 255)]
    = some [254, v % 256, v / 256 % 256, v / 65536 % 256, v / 16777216 % 256]
  rw [toUint8_jsAnd_byte0 v (by omega),
    toUint8_jsAnd_jsShr_byte v (by omega) 8 256 16777216 (by norm_num) (by norm_num)
      (by norm_num) (by norm_num),
    toUint8_jsAnd_jsShr_byte v (by omega) 16 65536 65536 (by norm_num) (by norm_num)
      (by norm_num) (by norm_num),
    toUint8_jsAnd_jsShr_byte v (by omega) 24 16777216 256 (by norm_num) (by norm_num)
      (by norm_num) (by norm_num)]

theorem readRollingUint_writeRollingUint (v : Nat) (rest : List Nat) (hv : v < 4294967296) :
    ∃ bs, writeRollingUint (v : Int) = some bs ∧ readRollingUint (bs ++ rest) = some (v, rest) := by
  by_cases hc1 : v < 253
  · refine ⟨[v], writeRollingUint_one v hc1, ?_⟩
    simp [readRollingUint, hc1]
  by_cases hc2 : v ≤ 65535
  · refine ⟨[253, v % 256, v / 256 % 256], writeRollingUint_three v hc1 hc2, ?_⟩
    have hval : (jsOr ((v % 256 : Nat) : Int) (jsShl ((v / 256 % 256 : Nat) : Int) 8)).toNat
        = v := by
      rw [readTwoBytes _ _ (by omega) (by omega)]
      omega
    simp only [readRollingUint, List.cons_append, if_neg (by omega : ¬ (253 : Nat) < 253),
      if_pos rfl, hval]
    simp
  · refine ⟨[254, v % 256, v / 256 % 256, v / 65536 % 256, v / 16777216 % 256],
      writeRollingUint_five v hc2 (by omega), ?_⟩
    have hval : jsShrU (jsOr (jsOr (jsOr ((v % 256 : Nat) : Int)
        (jsShl ((v / 256 % 256 : Nat) : Int) 8)) (jsShl ((v / 65536 % 256 : Nat) : Int) 16))
        (jsShl ((v / 16777216 % 256 : Nat) : Int) 24)) 0 = v := by
      rw [readFourBytes _ _ _ _ (by omega) (by omega) (by omega) (by omega)]
      omega
    simp only [readRollingUint, List.cons_append, if_neg (by omega : ¬ (254 : Nat) < 253),
      if_neg (by omega : ¬ (254 : Nat) = 253), if_pos rfl, hval]
    simp

/-- **C1.** The rolling-uint encoder picks the four forms by range and the
size query answers 1/3/5/9, but the 64-bit branch is broken: JavaScript
shift counts reduce modulo 32, so for `v = 2^32` the encoder emits the tag
`0xFF` followed by eight zero bytes (the low 32 bits twice), and the
decoder, whose `>>> 0 + ...` parses as a shift by the high-byte sum,
returns `0`, not `v`.  This theorem evaluates the code at the failing
input `v = 4294967296`. -/
theorem c1_rolling_uint_64bit_broken :
    getRollingUintSize 252 = some 1 ∧ getRollingUintSize 253 = some 3 ∧
    getRollingUintSize 65535 = some 3 ∧ getRollingUintSize 65536 = some 5 ∧
    getRollingUintSize 4294967295 = some 5 ∧ getRollingUintSize 4294967296 = some 9 ∧
    writeRollingUint 4294967296 = some [255, 0, 0, 0, 0, 0, 0, 0, 0] ∧
    (writeRollingUint 4294967296).bind (fun bs => readRollingUint bs) = some (0, []) := by
  decide

theorem toUint32_zero : toUint32 (0 : Int) = 0 := by unfold toUint32; omega

theorem toUint32_one : toUint32 (1 : Int) = 1 := by unfold toUint32; omega

theorem toUint32_neg_one : toUint32 (-1 : Int) = 4294967295 := by unfold toUint32; omega

theorem toInt32_natCast_large (v : Nat) (h1 : 2147483648 ≤ v) (h2 : v < 4294967296) :
    toInt32 (v : Int) = (v : Int) - 4294967296 := by
  unfold toInt32 toUint32; omega

/-- For `m < 2^n`, xor with the all-ones mask `2^n - 1` is complement:
`m ^^^ (2^n - 1) = 2^n - 1 - m`. -/
theorem xor_ones (n m : Nat) (h : m < 2 ^ n) : m ^^^ (2 ^ n - 1) = 2 ^ n - 1 - m := by
  induction n generalizing m with
  | zero =>
    have hm : m = 0 := by simpa using h
    subst hm
    rfl
  | succ n ih =>
    have hpow : (2 : Nat) ^ (n + 1) = 2 * 2 ^ n := by ring
    have hp0 : 0 < (2 : Nat) ^ n := Nat.pos_pow_of_pos _ (by omega)
    have hd : m / 2 < 2 ^ n := by omega
    have ihd := ih (m / 2) hd
    have hdiv : (m ^^^ (2 ^ (n + 1) - 1)) / 2 = (m / 2) ^^^ (2 ^ n - 1) := by
      rw [Nat.xor_div_two]
      congr 1
      omega
    have hones : (2 ^ (n + 1) - 1) % 2 = 1 := by omega
    have hmod : (m ^^^ (2 ^ (n + 1) - 1)) % 2 = 1 - m % 2 := by
      rcases Nat.mod_two_eq_zero_or_one m with hm | hm
      · have hone : (m ^^^ (2 ^ (n + 1) - 1)) % 2 = 1 :=
          Nat.xor_mod_two_eq_one.mpr (by rw [hm, hones]; simp)
        omega
      · have hne : ¬ ((m ^^^ (2 ^ (n + 1) - 1)) % 2 = 1) := fun hcon =>
          (Nat.xor_mod_two_eq_one.mp hcon) (by rw [hm, hones])
        have := Nat.mod_two_eq_zero_or_one (m ^^^ (2 ^ (n + 1) - 1))
        omega
    have hx2 := (Nat.div_add_mod (m ^^^ (2 ^ (n + 1) - 1)) 2).symm
    rw [hdiv, ihd] at hx2
    omega

/-- Zigzag as computed by `int()`: `(data << 1) ^ (data >> 31)`, in JS
32-bit arithmetic. -/
def intZigzag (v : Int) : Int := jsXor (jsShl v 1) (jsShr v 31)

/-- The byte string of `int()`'s writer.  `validateAndMakeWriter` first asks
`getRollingUintSize(zigzagged)`, which throws for a negative zigzag; the
writer then emits the rolling uint of the zigzag.  (The `typeof`/isInteger
validation is the domain `Int`.) -/
def intEncode (v : Int) : Option (List Nat) := writeRollingUint (intZigzag v)

/-- Inverse zigzag as computed by `int()`'s reader:
`(zigzagged >>> 1) ^ -(zigzagged & 1)`. -/
def intUnzigzag (z : Nat) : Int :=
  jsXor ((jsShrU (z : Int) 1 : Nat) : Int) (-(jsAnd (z : Int) 1))

/-- `int()`'s reader: a rolling uint, then inverse zigzag. -/
def intDecode (bytes : List Nat) : Option (Int × List Nat) :=
  (readRollingUint bytes).map (fun p => (intUnzigzag p.1, p.2))

theorem intZigzag_nonneg_eq (v : Int) (h1 : 0 ≤ v) (h2 : v < 1073741824) :
    intZigzag v = ((2 * v.toNat : Nat) : Int) := by
  obtain ⟨a, rfl⟩ : ∃ a : Nat, v = (a : Int) := ⟨v.toNat, (Int.toNat_of_nonneg h1).symm⟩
  have ha : a < 1073741824 := by omega
  unfold intZigzag
  have hshl : jsShl (a : Int) 1 = ((2 * a : Nat) : Int) := by
    unfold jsShl
    rw [toUint32_natCast a (by omega)]
    rw [show (2 : Nat) ^ (1 % 32) = 2 from rfl]
    rw [toInt32_natCast (a * 2) (by omega)]
    push_cast
    ring
  have hshr : jsShr (a : Int) 31 = 0 := by
    unfold jsShr
    rw [toInt32_natCast a (by omega)]
    rw [show ((2 : Int) ^ (31 % 32)) = 2147483648 from by norm_num]
    rw [Int.fdiv_eq_ediv _ (by norm_num)]
    omega
  rw [hshl, hshr]
  unfold jsXor
  rw [toUint32_natCast (2 * a) (by omega), toUint32_zero, Nat.xor_zero]
  rw [toInt32_natCast (2 * a) (by omega)]
  simp

theorem intZigzag_neg_eq (v : Int) (h1 : -1073741824 ≤ v) (h2 : v < 0) :
    intZigzag v = ((2 * (-v).toNat - 1 : Nat) : Int) := by
  obtain ⟨b, hb1, hbv⟩ : ∃ b : Nat, 1 ≤ b ∧ v = -(b : Int) := ⟨(-v).toNat, by omega, by omega⟩
  subst hbv
  have hb2 : b ≤ 1073741824 := by omega
  unfold intZigzag
  have hu : toUint32 (-(b : Int)) = 4294967296 - b := by
    unfold toUint32; omega
  have hshl : jsShl (-(b : Int)) 1 = ((4294967296 - 2 * b : Nat) : Int) - 4294967296 := by
    unfold jsShl
    rw [hu, show (2 : Nat) ^ (1 % 32) = 2 from rfl]
    have harg : toUint32 ((((4294967296 - b) * 2 : Nat) : Int)) = 4294967296 - 2 * b := by
      unfold toUint32; omega
    unfold toInt32
    rw [harg]
    rw [if_neg (by omega)]
  have hshr : jsShr (-(b : Int)) 31 = -1 := by
    unfold jsShr toInt32
    rw [hu]
    rw [if_neg (by omega)]
    rw [show ((2 : Int) ^ (31 % 32)) = 2147483648 from by norm_num]
    rw [Int.fdiv_eq_ediv _ (by norm_num)]
    omega
  rw [hshl, hshr]
  unfold jsXor
  have hux : toUint32 (((4294967296 - 2 * b : Nat) : Int) - 4294967296) = 4294967296 - 2 * b := by
    unfold toUint32; omega
  rw [hux, toUint32_neg_one]
  rw [show (4294967295 : Nat) = 2 ^ 32 - 1 from by norm_num]
  rw [xor_ones 32 (4294967296 - 2 * b)
    (by have hp : (2 : Nat) ^ 32 = 4294967296 := by norm_num
        omega)]
  have hval : 2 ^ 32 - 1 - (4294967296 - 2 * b) = 2 * b - 1 := by omega
  rw [hval]
  rw [toInt32_natCast (2 * b - 1) (by omega)]
  congr 1
  omega

theorem intUnzigzag_even (a : Nat) (h : a < 2147483648) :
    intUnzigzag (2 * a) = (a : Int) := by
  unfold intUnzigzag
  have hru : (jsShrU ((2 * a : Nat) : Int) 1 : Nat) = a := by
    unfold jsShrU
    rw [toUint32_natCast (2 * a) (by omega), toUint32_one]
    rw [show (2 : Nat) ^ (1 % 32) = 2 from rfl]
    omega
  have hand : jsAnd ((2 * a : Nat) : Int) 1 = 0 := by
    unfold jsAnd
    rw [toUint32_natCast (2 * a) (by omega), toUint32_one]
    rw [Nat.and_one_is_mod, Nat.mul_mod_right]
    rw [toInt32_natCast 0 (by omega)]
    exact Nat.cast_zero
  rw [hru, hand, neg_zero]
  unfold jsXor
  rw [toUint32_natCast a (by omega), toUint32_zero, Nat.xor_zero]
  exact toInt32_natCast a (by omega)

theorem intUnzigzag_odd (b : Nat) (h1 : 1 ≤ b) (h2 : b ≤ 1073741824) :
    intUnzigzag (2 * b - 1) = -(b : Int) := by
  unfold intUnzigzag
  have hru : (jsShrU ((2 * b - 1 : Nat) : Int) 1 : Nat) = b - 1 := by
    unfold jsShrU
    rw [toUint32_natCast (2 * b - 1) (by omega), toUint32_one]
    rw [show (2 : Nat) ^ (1 % 32) = 2 from rfl]
    omega
  have hand : jsAnd ((2 * b - 1 : Nat) : Int) 1 = 1 := by
    unfold jsAnd
    rw [toUint32_natCast (2 * b - 1) (by omega), toUint32_one]
    rw [Nat.and_one_is_mod]
    rw [show (2 * b - 1) % 2 = 1 from by omega]
    rw [toInt32_natCast 1 (by omega)]
    exact Nat.cast_one
  rw [hru, hand]
  unfold jsXor
  rw [toUint32_natCast (b - 1) (by omega), toUint32_neg_one]
  rw [show (4294967295 : Nat) = 2 ^ 32 - 1 from by norm_num]
  rw [xor_ones 32 (b - 1)
    (by have hp : (2 : Nat) ^ 32 = 4294967296 := by norm_num
        omega)]
  rw [show 2 ^ 32 - 1 - (b - 1) = 4294967296 - b from
    by have hp : (2 : Nat) ^ 32 = 4294967296 := by norm_num
       omega]
  rw [toInt32_natCast_large (4294967296 - b) (by omega) (by omega)]
  omega

set_option maxRecDepth 4000 in
/-- **C5 counterexample.**  The claim promises the round-trip for every
`|v| < 2^31`, but at `v = 2^30` the 32-bit zigzag `(v << 1) ^ (v >> 31)`
overflows to `-2^31`, so `getRollingUintSize` throws and the encoder never
produces bytes: the round-trip does not return `v`. -/
theorem c5_zigzag_counterexample :
    (intEncode 1073741824).bind intDecode = none ∧ intEncode 1073741824 = none ∧
    (intEncode (-1073741825)).bind intDecode = none ∧ intZigzag 1073741824 = -2147483648 := by
  decide

set_option maxRecDepth 4000 in
/-- **C5 (amended).**  The `int` schema encodes `v` as the rolling uint of
`z = (v << 1) ^ (v >> 31)` in 32-bit arithmetic and decodes with
`(z >>> 1) ^ -(z & 1)`; the round-trip returns `v` exactly on
`-2^30 ≤ v < 2^30` (outside this range, but still within `|v| < 2^31`, the
32-bit zigzag is negative and the encoder throws). -/
theorem c5_int_zigzag_roundtrip (v : Int) (rest : List Nat) (h1 : -1073741824 ≤ v)
    (h2 : v < 1073741824) :
    ∃ bs, intEncode v = some bs ∧ intDecode (bs ++ rest) = some (v, rest) := by
  rcases le_or_lt 0 v with hpos | hneg
  · have hz := intZigzag_nonneg_eq v hpos h2
    have ha : v.toNat < 1073741824 := by omega
    obtain ⟨bs, hw, hr⟩ := readRollingUint_writeRollingUint (2 * v.toNat) rest (by omega)
    refine ⟨bs, ?_, ?_⟩
    · rw [intEncode, hz, hw]
    · rw [intDecode, hr, Option.map_some']
      rw [intUnzigzag_even v.toNat (by omega)]
      rw [Int.toNat_of_nonneg hpos]
  · have hz := intZigzag_neg_eq v h1 hneg
    have hb1 : 1 ≤ (-v).toNat := by omega
    have hb2 : (-v).toNat ≤ 1073741824 := by omega
    obtain ⟨bs, hw, hr⟩ := readRollingUint_writeRollingUint (2 * (-v).toNat - 1) rest (by omega)
    refine ⟨bs, ?_, ?_⟩
    · rw [intEncode, hz, hw]
    · rw [intDecode, hr, Option.map_some']
      rw [intUnzigzag_odd (-v).toNat hb1 hb2]
      have hvv : (-(((-v).toNat : Nat) : Int)) = v := by omega
      rw [hvv]

/-- Witness for `c5_int_zigzag_roundtrip` at `v = -5`. -/
theorem c5_int_zigzag_roundtrip_witness :
    ∃ bs, intEncode (-5) = some bs ∧ intDecode (bs ++ []) = some (-5, []) :=
  c5_int_zigzag_roundtrip (-5) [] (by norm_num) (by norm_num)

/-!
## Read context (`ReadContext.ts`)

State is a pair: `buf` is `_slices` (chunks already received, the consumed
prefix of the head slice dropped, folding in `_pos`), `pend` is the chunks
the underlying stream will deliver next, in order; the end of `pend` is the
stream's EOF (the `null` slice).  `none` models `OutOfDataError`.  Note the
await path of `readByte`/`peekByte`: a freshly delivered chunk is consumed
at `slice[0]`, which is `undefined` when that chunk is empty — an
`OutOfDataError` — while the drain loop skips empty slices that are already
buffered, and `readBytes`'s await path also skips them.
-/

def rcReadByte : List (List Nat) → List (List Nat) →
    Option (Nat × (List (List Nat) × List (List Nat)))
  | [] :: bs, pend => rcReadByte bs pend
  | (b :: rest) :: bs, pend => some (b, (rest :: bs, pend))
  | [], [] => none
  | [], [] :: _ => none
  | [], (b :: rest) :: pend => some (b, ([rest], pend))

def rcPeekByte : List (List Nat) → List (List Nat) →
    Option (Nat × (List (List Nat) × List (List Nat)))
  | [] :: bs, pend => rcPeekByte bs pend
  | (b :: rest) :: bs, pend => some (b, ((b :: rest) :: bs, pend))
  | [], [] => none
  | [], [] :: _ => none
  | [], (b :: rest) :: pend => some (b, ([b :: rest], pend))

def rcReadBytes : Nat → List (List Nat) → List (List Nat) →
    Option (List Nat × (List (List Nat) × List (List Nat)))
  | 0, buf, pend => some ([], (buf, pend))
  | n+1, [] :: bs, pend => rcReadBytes (n+1) bs pend
  | n+1, (b :: rest) :: bs, pend =>
    (rcReadBytes n (rest :: bs) pend).map (fun p => (b :: p.1, p.2))
  | _+1, [], [] => none
  | n+1, [], c :: pend => rcReadBytes (n+1) [c] pend
termination_by n buf pend => (pend.length, buf.length, n)

/-- The concatenation of everything a state will ever deliver. -/
def rcBytes (buf pend : List (List Nat)) : List Nat := buf.flatten ++ pend.flatten

/-- Observation of a single-byte read: the value and the remaining byte
sequence of the residual state. -/
def rcObs (o : Option (Nat × (List (List Nat) × List (List Nat)))) : Option (Nat × List Nat) :=
  o.map (fun p => (p.1, rcBytes p.2.1 p.2.2))

/-- Observation of a `readBytes` call. -/
def rcObsL (o : Option (List Nat × (List (List Nat) × List (List Nat)))) :
    Option (List Nat × List Nat) :=
  o.map (fun p => (p.1, rcBytes p.2.1 p.2.2))

theorem rcReadByte_obs (buf pend : List (List Nat)) (hp : ∀ c ∈ pend, c ≠ []) :
    rcObs (rcReadByte buf pend) = rcObs (rcReadByte [] [rcBytes buf pend]) := by
  induction buf, pend using rcReadByte.induct with
  | case1 bs pend ih =>
    rw [rcReadByte]
    rw [ih hp]
    simp [rcBytes]
  | case2 b rest bs pend =>
    rw [rcReadByte]
    simp [rcObs, rcBytes, rcReadByte]
  | case3 =>
    simp [rcObs, rcBytes, rcReadByte]
  | case4 tl =>
    exact absurd rfl (hp [] (by simp))
  | case5 b rest pend =>
    rw [rcReadByte]
    simp [rcObs, rcBytes, rcReadByte]

theorem rcPeekByte_obs (buf pend : List (List Nat)) (hp : ∀ c ∈ pend, c ≠ []) :
    rcObs (rcPeekByte buf pend) = rcObs (rcPeekByte [] [rcBytes buf pend]) := by
  induction buf, pend using rcPeekByte.induct with
  | case1 bs pend ih =>
    rw [rcPeekByte]
    rw [ih hp]
    simp [rcBytes]
  | case2 b rest bs pend =>
    rw [rcPeekByte]
    simp [rcObs, rcBytes, rcPeekByte]
  | case3 =>
    simp [rcObs, rcBytes, rcPeekByte]
  | case4 tl =>
    exact absurd rfl (hp [] (by simp))
  | case5 b rest pend =>
    rw [rcPeekByte]
    simp [rcObs, rcBytes, rcPeekByte]

theorem rcReadBytes_canonical (n : Nat) (buf pend : List (List Nat)) :
    rcObsL (rcReadBytes n buf pend) =
      if n ≤ (rcBytes buf pend).length then
        some ((rcBytes buf pend).take n, (rcBytes buf pend).drop n)
      else none := by
  induction n, buf, pend using rcReadBytes.induct with
  | case1 buf pend =>
    simp [rcReadBytes, rcObsL]
  | case2 n bs pend ih =>
    rw [rcReadBytes, ih]
    simp [rcBytes]
  | case3 n b rest bs pend ih =>
    rw [rcReadBytes]
    have hb : rcBytes ((b :: rest) :: bs) pend = b :: rcBytes (rest :: bs) pend := by
      simp [rcBytes]
    rw [hb]
    rcases le_or_lt n (rcBytes (rest :: bs) pend).length with hle | hgt
    · rw [if_pos (by simp; omega)]
      simp only [rcObsL, Option.map_map] at ih ⊢
      rw [show (rcReadBytes n (rest :: bs) pend).map
          ((fun p => (p.1, rcBytes p.2.1 p.2.2)) ∘ fun p => (b :: p.1, p.2)) =
          ((rcReadBytes n (rest :: bs) pend).map
            (fun p => (p.1, rcBytes p.2.1 p.2.2))).map (fun q => (b :: q.1, q.2)) from by
        cases rcReadBytes n (rest :: bs) pend <;> rfl]
      rw [ih, if_pos hle]
      simp
    · rw [if_neg (by simp; omega)]
      simp only [rcObsL, Option.map_map] at ih ⊢
      rw [show (rcReadBytes n (rest :: bs) pend).map
          ((fun p => (p.1, rcBytes p.2.1 p.2.2)) ∘ fun p => (b :: p.1, p.2)) =
          ((rcReadBytes n (rest :: bs) pend).map
            (fun p => (p.1, rcBytes p.2.1 p.2.2))).map (fun q => (b :: q.1, q.2)) from by
        cases rcReadBytes n (rest :: bs) pend <;> rfl]
      rw [ih, if_neg (by omega)]
      rfl
  | case4 n =>
    simp [rcReadBytes, rcObsL, rcBytes]
  | case5 n c pend ih =>
    rw [rcReadBytes, ih]
    simp [rcBytes]

/-- **C9 counterexample.**  The byte sequence `[1]` split as the two chunks
`[] , [1]` and as the single chunk `[1]` delivers the same concatenation,
but `readByte` (and `peekByte`) on a reader that is already awaiting input
raises `OutOfDataError` when the empty chunk arrives (`slice[0]` is
`undefined`), while the single-chunk split returns the byte `1`: the result
does depend on where the chunk boundaries fall. -/
theorem c9_chunk_boundary_counterexample :
    rcBytes [] [[], [1]] = rcBytes [] [[1]] ∧
    rcReadByte [] [[], [1]] = none ∧
    rcReadByte [] [[1]] = some (1, ([[]], [])) ∧
    rcPeekByte [] [[], [1]] = none ∧
    rcPeekByte [] [[1]] = some (1, ([[1]], [])) :=
  ⟨rfl, rfl, rfl, rfl, rfl⟩

/-- **C9 (amended).**  For every way of splitting a byte sequence into
*non-empty* chunks, `readByte`, `peekByte` and `readBytes` observe exactly
what they observe when the whole sequence arrives as a single chunk (the
value read together with the bytes the residual state will deliver);
`readBytes` is chunk-boundary independent even with empty chunks, because
its await path tolerates an empty slice. -/
theorem c9_read_context_chunk_invariance :
    (∀ buf pend : List (List Nat), (∀ c ∈ pend, c ≠ []) →
      rcObs (rcReadByte buf pend) = rcObs (rcReadByte [] [rcBytes buf pend])) ∧
    (∀ buf pend : List (List Nat), (∀ c ∈ pend, c ≠ []) →
      rcObs (rcPeekByte buf pend) = rcObs (rcPeekByte [] [rcBytes buf pend])) ∧
    (∀ (n : Nat) (buf pend : List (List Nat)),
      rcObsL (rcReadBytes n buf pend) = rcObsL (rcReadBytes n [] [rcBytes buf pend])) := by
  refine ⟨rcReadByte_obs, rcPeekByte_obs, fun n buf pend => ?_⟩
  rw [rcReadBytes_canonical, rcReadBytes_canonical]
  have h : rcBytes [] [rcBytes buf pend] = rcBytes buf pend := by simp [rcBytes]
  rw [h]

/-- Witness for `c9_read_context_chunk_invariance` on the split
`[5] ++ [6,7]` of `[5,6,7]` and a three-byte read. -/
theorem c9_read_context_chunk_invariance_witness :
    rcObs (rcReadByte [[5]] [[6, 7]]) = rcObs (rcReadByte [] [rcBytes [[5]] [[6, 7]]]) ∧
    rcObs (rcPeekByte [[5]] [[6, 7]]) = rcObs (rcPeekByte [] [rcBytes [[5]] [[6, 7]]]) ∧
    rcObsL (rcReadBytes 3 [[5]] [[6, 7]]) =
      rcObsL (rcReadBytes 3 [] [rcBytes [[5]] [[6, 7]]]) :=
  ⟨c9_read_context_chunk_invariance.1 [[5]] [[6, 7]] (by decide),
   c9_read_context_chunk_invariance.2.1 [[5]] [[6, 7]] (by decide),
   c9_read_context_chunk_invariance.2.2 3 [[5]] [[6, 7]]⟩

/-!
## Object key ordering

Modelled from the spec: `object()` sorts its keys with
`(a, b) => a.localeCompare(b)`.  The collation of
`String.prototype.localeCompare` is supplied by the host, not by this
repository's sources; the spec fixes the resulting wire order as "strict
lexicographic (locale-insensitive) ordering of UTF-8 keys", which the
codepoint-wise comparison below implements (on the distinct ASCII keys of
every concrete example it agrees with any host collation).  `Array.sort`
produces the sorted permutation, modelled by insertion sort.
-/

def keyLtB : List Char → List Char → Bool
  | [], [] => false
  | [], _ :: _ => true
  | _ :: _, [] => false
  | a :: as, b :: bs =>
    if a.toNat < b.toNat then true
    else if a.toNat = b.toNat then keyLtB as bs
    else false

/-- `a.localeCompare(b) ≤ 0`, the order the comparator sorts by. -/
def keyLe (a b : String) : Prop := keyLtB b.data a.data = false

instance : DecidableRel keyLe := fun a b => by unfold keyLe; infer_instance

def sortKeys (keys : List String) : List String := keys.insertionSort keyLe

theorem charEqOfToNat {c d : Char} (h : c.toNat = d.toNat) : c = d :=
  Char.ext (UInt32.toNat.inj h)

theorem keyLtB_trans (a : List Char) : ∀ b c : List Char,
    keyLtB a b = true → keyLtB b c = true → keyLtB a c = true := by
  induction a with
  | nil =>
    intro b c hab hbc
    cases b with
    | nil => exact absurd hab (by simp [keyLtB])
    | cons y ys =>
      cases c with
      | nil => exact absurd hbc (by simp [keyLtB])
      | cons z zs => simp [keyLtB]
  | cons x xs ih =>
    intro b c hab hbc
    cases b with
    | nil => exact absurd hab (by simp [keyLtB])
    | cons y ys =>
      cases c with
      | nil => exact absurd hbc (by simp [keyLtB])
      | cons z zs =>
        simp only [keyLtB] at hab hbc ⊢
        by_cases hxy : x.toNat < y.toNat
        · by_cases hyz : y.toNat < z.toNat
          · rw [if_pos (by omega)]
          · rw [if_pos hxy] at hab
            simp only [if_neg hyz] at hbc
            by_cases hyz2 : y.toNat = z.toNat
            · rw [if_pos (by omega)]
            · simp [if_neg hyz2] at hbc
        · simp only [if_neg hxy] at hab
          by_cases hxy2 : x.toNat = y.toNat
          · simp only [if_pos hxy2] at hab
            by_cases hyz : y.toNat < z.toNat
            · rw [if_pos (by omega)]
            · simp only [if_neg hyz] at hbc
              by_cases hyz2 : y.toNat = z.toNat
              · rw [if_neg (by omega), if_pos (by omega)]
                simp only [if_pos hyz2] at hbc
                exact ih ys zs hab hbc
              · simp [if_neg hyz2] at hbc
          · simp [if_neg hxy2] at hab

theorem keyLtB_eq_of_not (a : List Char) : ∀ b : List Char,
    keyLtB a b = false → keyLtB b a = false → a = b := by
  induction a with
  | nil =>
    intro b hab _
    cases b with
    | nil => rfl
    | cons y ys => exact absurd hab (by simp [keyLtB])
  | cons x xs ih =>
    intro b hab hba
    cases b with
    | nil => exact absurd hba (by simp [keyLtB])
    | cons y ys =>
      simp only [keyLtB] at hab hba
      by_cases hxy : x.toNat < y.toNat
      · simp [if_pos hxy] at hab
      · by_cases hyx : y.toNat < x.toNat
        · simp [if_pos hyx] at hba
        · have heq : x.toNat = y.toNat := by omega
          simp only [if_neg hxy, if_pos heq, if_neg hyx, if_pos heq.symm] at hab hba
          rw [charEqOfToNat heq, ih ys hab hba]

theorem keyLtB_irrefl (a : List Char) : keyLtB a a = false := by
  induction a with
  | nil => rfl
  | cons x xs ih =>
    simp only [keyLtB, if_neg (by omega : ¬ x.toNat < x.toNat), if_pos rfl]
    exact ih

theorem keyLtB_asymm (a b : List Char) (h : keyLtB a b = true) : keyLtB b a = false := by
  by_contra hcon
  have hba : keyLtB b a = true := by
    cases hval : keyLtB b a
    · exact absurd hval hcon
    · rfl
  have haa : keyLtB a a = true := keyLtB_trans a b a h hba
  rw [keyLtB_irrefl a] at haa
  exact absurd haa (by simp)

instance : IsTotal String keyLe := by
  constructor
  intro a b
  unfold keyLe
  cases hab : keyLtB b.data a.data
  · exact Or.inl rfl
  · exact Or.inr (keyLtB_asymm _ _ hab)

instance : IsTrans String keyLe := by
  constructor
  intro a b c hab hbc
  unfold keyLe at hab hbc ⊢
  cases hca : keyLtB c.data a.data
  · rfl
  · exfalso
    cases hbc2 : keyLtB b.data c.data
    · have heq : b.data = c.data := keyLtB_eq_of_not _ _ hbc2 hbc
      rw [← heq] at hca
      rw [hca] at hab
      exact absurd hab (by simp)
    · have : keyLtB b.data a.data = true := keyLtB_trans _ _ _ hbc2 hca
      rw [this] at hab
      exact absurd hab (by simp)

instance : IsAntisymm String keyLe := by
  constructor
  intro a b hab hba
  unfold keyLe at hab hba
  have hd : a.data = b.data := keyLtB_eq_of_not _ _ hba hab
  cases a; cases b
  exact congrArg String.mk hd

theorem sortKeys_sorted (keys : List String) : (sortKeys keys).Sorted keyLe :=
  List.sorted_insertionSort keyLe keys

theorem sortKeys_perm (keys : List String) : (sortKeys keys).Perm keys :=
  List.perm_insertionSort keyLe keys

theorem sortKeys_eq_of_perm (l₁ l₂ : List String) (h : l₁.Perm l₂) :
    sortKeys l₁ = sortKeys l₂ :=
  List.eq_of_perm_of_sorted
    (((sortKeys_perm l₁).trans h).trans (sortKeys_perm l₂).symm)
    (sortKeys_sorted l₁) (sortKeys_sorted l₂)

theorem lookup_perm {β : Type} (l₁ l₂ : List (String × β)) (h : l₁.Perm l₂)
    (hnd : (l₁.map Prod.fst).Nodup) (k : String) : l₁.lookup k = l₂.lookup k := by
  induction h with
  | nil => rfl
  | cons x hperm ih =>
    simp only [List.map_cons, List.nodup_cons] at hnd
    obtain ⟨x1, x2⟩ := x
    simp only [List.lookup]
    cases hk : (k == x1)
    · exact ih hnd.2
    · rfl
  | swap x y l =>
    obtain ⟨x1, x2⟩ := x
    obtain ⟨y1, y2⟩ := y
    simp only [List.map_cons, List.nodup_cons, List.mem_cons, List.mem_map] at hnd
    simp only [List.lookup]
    cases hky : (k == y1) <;> cases hkx : (k == x1) <;> try rfl
    exfalso
    have h1 : k = y1 := by simpa using hky
    have h2 : k = x1 := by simpa using hkx
    exact hnd.1 (Or.inl (h1.symm.trans h2))
  | trans h₁ h₂ ih₁ ih₂ =>
    rw [ih₁ hnd, ih₂ ((h₁.map Prod.fst).nodup hnd)]

/-!
## Object schema value wire format (`object()` in the schema module)

The writer validates every field in sorted key order, collecting a writer
per field, and then runs the writers in the same order; only the
concatenated field encodings reach the wire (key names live in the schema
bytes).  The reader decodes the fields in the same sorted order.  A field
schema is abstracted as its `validateAndMakeWriter` (`α → Option (List Nat)`,
`none` for a `ValidationError`) resp. its `readFromContext`.
-/

def objectEncodeGo {α : Type} (schemas : List (String × (α → Option (List Nat))))
    (data : String → α) : List String → Option (List (List Nat))
  | [] => some []
  | k :: ks =>
    match (schemas.lookup k).bind (fun enc => enc (data k)) with
    | none => none
    | some bs => (objectEncodeGo schemas data ks).map (fun rest => bs :: rest)

def objectEncode {α : Type} (schemas : List (String × (α → Option (List Nat))))
    (data : String → α) : Option (List Nat) :=
  (objectEncodeGo schemas data (sortKeys (schemas.map Prod.fst))).map List.flatten

def objectDecodeGo {α : Type} (schemas : List (String × (List Nat → Option (α × List Nat)))) :
    List String → List Nat → Option (List (String × α) × List Nat)
  | [], bytes => some ([], bytes)
  | k :: ks, bytes =>
    match (schemas.lookup k).bind (fun dec => dec bytes) with
    | none => none
    | some (v, rest) => (objectDecodeGo schemas ks rest).map (fun p => ((k, v) :: p.1, p.2))

def objectDecode {α : Type} (schemas : List (String × (List Nat → Option (α × List Nat))))
    (bytes : List Nat) : Option (List (String × α) × List Nat) :=
  objectDecodeGo schemas (sortKeys (schemas.map Prod.fst)) bytes

/-- `uint8()`: validates an integer in `0..255` and writes it as one byte. -/
def uint8Encode (data : Int) : Option (List Nat) :=
  if data < 0 ∨ 255 < data then none else some [toUint8 data]

/-- `uint8()`'s reader: one byte. -/
def uint8Decode : List Nat → Option (Int × List Nat)
  | b :: rest => some ((b : Int), rest)
  | [] => none

theorem objectEncodeGo_congr {α : Type} (s₁ s₂ : List (String × (α → Option (List Nat))))
    (data : String → α) (hl : ∀ k, s₁.lookup k = s₂.lookup k) (keys : List String) :
    objectEncodeGo s₁ data keys = objectEncodeGo s₂ data keys := by
  induction keys with
  | nil => rfl
  | cons k ks ih =>
    simp only [objectEncodeGo, hl k, ih]

/-- **C4.**  Object fields travel in strict lexicographic order of the
keys, whatever the declaration order: the key list actually used is the
sorted permutation of the declared keys, two declarations that are
permutations of each other produce identical wire bytes, the decoder reads
the fields back in the same sorted order, and
`object({a: uint8(), b: uint8()})` with `{b: 2, a: 1}` encodes to exactly
`0x01 0x02`. -/
theorem c4_object_key_order :
    (∀ keys : List String, (sortKeys keys).Sorted keyLe ∧ (sortKeys keys).Perm keys) ∧
    (∀ (α : Type) (s₁ s₂ : List (String × (α → Option (List Nat)))) (data : String → α),
      s₁.Perm s₂ → (s₁.map Prod.fst).Nodup →
      objectEncode s₁ data = objectEncode s₂ data) ∧
    objectEncode [("b", uint8Encode), ("a", uint8Encode)]
      (fun k => if k = "a" then 1 else 2) = some [1, 2] ∧
    objectDecode [("b", uint8Decode), ("a", uint8Decode)] [1, 2] =
      some ([("a", 1), ("b", 2)], []) := by
  refine ⟨fun keys => ⟨sortKeys_sorted keys, sortKeys_perm keys⟩, ?_, ?_, ?_⟩
  · intro α s₁ s₂ data hperm hnd
    unfold objectEncode
    rw [sortKeys_eq_of_perm (s₁.map Prod.fst) (s₂.map Prod.fst) (hperm.map Prod.fst)]
    rw [objectEncodeGo_congr s₁ s₂ data (lookup_perm s₁ s₂ hperm hnd)]
  · decide
  · decide

/-- Witness for `c4_object_key_order`: the two declaration orders of the
`{a, b}` object encode identically. -/
theorem c4_object_key_order_witness :
    objectEncode [("b", uint8Encode), ("a", uint8Encode)]
      (fun k => if k = "a" then 1 else 2) =
    objectEncode [("a", uint8Encode), ("b", uint8Encode)]
      (fun k => if k = "a" then 1 else 2) :=
  c4_object_key_order.2.1 Int [("b", uint8Encode), ("a", uint8Encode)]
    [("a", uint8Encode), ("b", uint8Encode)] (fun k => if k = "a" then 1 else 2)
    (List.Perm.swap ("a", uint8Encode) ("b", uint8Encode) [])
    (by simp)

/-!
## Schema byte-representations and reflection

`dataType` as exported by `utils.ts` — note there is no `bytes` member
(the 0x04 tag is named `u8array`), while `reflection.ts` dispatches on
`dataType.bytes`, i.e. on `undefined`: that `case` can never match a
numeric type byte.
-/

def dataTypeArray : Nat := 0x01

def dataTypeObject : Nat := 0x02

def dataTypeString : Nat := 0x03

def dataTypeU8array : Nat := 0x04

def dataTypeBuffer : Nat := 0x05

def dataTypePromise : Nat := 0x06

def dataTypeIterator : Nat := 0x07

def dataTypeBoolean : Nat := 0x08

def dataTypeUint8 : Nat := 0x09

def dataTypeUint : Nat := 0x0a

/-- JS `string.length`: the UTF-16 code-unit count. -/
def utf16Len (s : String) : Nat :=
  (s.data.map (fun c => if c.toNat < 0x10000 then 1 else 2)).sum

/-- `getEncodedLenNoAlloc`: the UTF-8 byte count, accumulated over UTF-16
units in the source (a surrogate pair advances two units for 4 bytes);
per codepoint this is 1/2/3/4 bytes. -/
def getEncodedLenNoAlloc (s : String) : Nat :=
  (s.data.map (fun c =>
    if c.toNat < 0x80 then 1
    else if c.toNat < 0x800 then 2
    else if c.toNat < 0x10000 then 3
    else 4)).sum

/-- Modelled from the spec: `TextEncoder.encodeInto` (a host function, not
in the sources) writes standard UTF-8. -/
def utf8EncodeChar (c : Char) : List Nat :=
  if c.toNat < 0x80 then [c.toNat]
  else if c.toNat < 0x800 then [0xc0 + c.toNat / 64, 0x80 + c.toNat % 64]
  else if c.toNat < 0x10000 then
    [0xe0 + c.toNat / 4096, 0x80 + c.toNat / 64 % 64, 0x80 + c.toNat % 64]
  else
    [0xf0 + c.toNat / 262144, 0x80 + c.toNat / 4096 % 64, 0x80 + c.toNat / 64 % 64,
      0x80 + c.toNat % 64]

def utf8Encode (s : String) : List Nat := (s.data.map utf8EncodeChar).flatten

/-- Sequential element stores `buf[pos+i] = bytes[i]`; out-of-bounds stores
are dropped (`Uint8Array` index-store semantics). -/
def writeBytesAt (buf : List Nat) (pos : Nat) : List Nat → List Nat
  | [] => buf
  | b :: rest => writeBytesAt (buf.set pos b) (pos + 1) rest

/-- `TypedArray.prototype.set(src, pos)`: `RangeError` (`none`) when the
source does not fit in the target. -/
def bufSetArr (buf : List Nat) (src : List Nat) (pos : Nat) : Option (List Nat) :=
  if pos + src.length ≤ buf.length then some (writeBytesAt buf pos src) else none

/-- `getRollingUintSize` on a value known to be a non-negative integer. -/
def rollingUintSizeN (n : Nat) : Nat :=
  if n < 0xfd then 1 else if n ≤ 0xffff then 3 else if n ≤ 0xffffffff then 5 else 9

/-- The per-key write loop of `object()`'s schema construction: varint of
`key.length` (the UTF-16 length), then `te.encodeInto` of the UTF-8 key
bytes (`getEncodedLenNoAlloc(key)` of them), then `schema.set(part, pos)` —
the only step that checks bounds. -/
def objectSchemaGo : List (String × List Nat) → List Nat → Nat → Option (List Nat)
  | [], buf, _ => some buf
  | (key, part) :: rest, buf, pos =>
    match writeRollingUintNoAlloc ((utf16Len key : Nat) : Int) buf pos with
    | none => none
    | some (buf1, pos1) =>
      let buf2 := writeBytesAt buf1 pos1 (utf8Encode key)
      let pos2 := pos1 + getEncodedLenNoAlloc key
      match bufSetArr buf2 part pos2 with
      | none => none
      | some buf3 => objectSchemaGo rest buf3 (pos2 + part.length)

/-- `object()`'s schema bytes: keys are sorted; the buffer is sized with
the UTF-16 `key.length` (`schemaLen += getRollingUintSize(key.length) +
key.length`) although the writer advances by the UTF-8 byte count. -/
def objectSchemaBytes (decl : List (String × List Nat)) : Option (List Nat) :=
  let keys := sortKeys (decl.map Prod.fst)
  let parts := keys.map (fun k => (decl.lookup k).getD [])
  let schemaLen := 1 + rollingUintSizeN keys.length
    + (keys.map (fun k => rollingUintSizeN (utf16Len k) + utf16Len k)).sum
    + (parts.map List.length).sum
  let buf0 := (List.replicate schemaLen 0).set 0 dataTypeObject
  match writeRollingUintNoAlloc ((keys.length : Nat) : Int) buf0 1 with
  | none => none
  | some (buf1, pos1) => objectSchemaGo (keys.zip parts) buf1 pos1

/-- Modelled from the spec: the host `TextDecoder` decodes standard UTF-8
(the sources only call `td.decode`); behaviour on invalid sequences is
irrelevant to the claims settled here. -/
def utf8DecodeF : Nat → List Nat → Option (List Char)
  | 0, _ => none
  | _ + 1, [] => some []
  | fuel + 1, b :: rest =>
    if b < 0x80 then (utf8DecodeF fuel rest).map (fun cs => Char.ofNat b :: cs)
    else if b < 0xe0 then
      match rest with
      | b1 :: rest2 =>
        (utf8DecodeF fuel rest2).map (fun cs =>
          Char.ofNat ((b - 0xc0) * 64 + (b1 - 0x80)) :: cs)
      | [] => none
    else if b < 0xf0 then
      match rest with
      | b1 :: b2 :: rest2 =>
        (utf8DecodeF fuel rest2).map (fun cs =>
          Char.ofNat ((b - 0xe0) * 4096 + (b1 - 0x80) * 64 + (b2 - 0x80)) :: cs)
      | _ => none
    else
      match rest with
      | b1 :: b2 :: b3 :: rest2 =>
        (utf8DecodeF fuel rest2).map (fun cs =>
          Char.ofNat ((b - 0xf0) * 262144 + (b1 - 0x80) * 4096 + (b2 - 0x80) * 64
            + (b3 - 0x80)) :: cs)
      | _ => none

def utf8Decode (bytes : List Nat) : Option String :=
  (utf8DecodeF (bytes.length + 1) bytes).map String.mk

/-- The schemas `reflectToSchema` can produce. -/
inductive RSchema where
  | arr (child : RSchema)
  | bool
  | iter (child : RSchema)
  | obj (fields : List (String × RSchema))
  | prom (child : RSchema)
  | str

/-- The object-field loop of `reflectToSchema`, parameterised by the
parser used for each field's child schema. -/
def reflectObjFieldsF (child : List Nat → Option (RSchema × List Nat)) :
    Nat → List Nat → Option (List (String × RSchema) × List Nat)
  | 0, bytes => some ([], bytes)
  | n + 1, bytes =>
    match readRollingUint bytes with
    | none => none
    | some (fieldNameLength, rest1) =>
      if fieldNameLength ≤ rest1.length then
        match utf8Decode (rest1.take fieldNameLength) with
        | none => none
        | some fieldName =>
          match child (rest1.drop fieldNameLength) with
          | none => none
          | some (fieldSchema, rest2) =>
            (reflectObjFieldsF child n rest2).map (fun p =>
              ((fieldName, fieldSchema) :: p.1, p.2))
      else none

/-- `reflectToSchema` (reflection.ts): read a type byte, dispatch.  Tag
0x04 (`u8array`) falls through to the `default` throw because the switch
compares against the nonexistent `dataType.bytes`.  Fuel only bounds the
recursion depth; callers pass more than enough. -/
def reflectToSchemaF : Nat → List Nat → Option (RSchema × List Nat)
  | 0, _ => none
  | fuel + 1, bytes =>
    match bytes with
    | [] => none
    | typeByte :: rest =>
      if typeByte = dataTypeArray then
        (reflectToSchemaF fuel rest).map (fun p => (RSchema.arr p.1, p.2))
      else if typeByte = dataTypeBoolean then some (RSchema.bool, rest)
      else if typeByte = dataTypeIterator then
        (reflectToSchemaF fuel rest).map (fun p => (RSchema.iter p.1, p.2))
      else if typeByte = dataTypeObject then
        match readRollingUint rest with
        | none => none
        | some (numFields, rest1) =>
          (reflectObjFieldsF (fun bs => reflectToSchemaF fuel bs) numFields rest1).map
            (fun p => (RSchema.obj p.1, p.2))
      else if typeByte = dataTypePromise then
        (reflectToSchemaF fuel rest).map (fun p => (RSchema.prom p.1, p.2))
      else if typeByte = dataTypeString then some (RSchema.str, rest)
      else none

def reflectToSchema (bytes : List Nat) : Option (RSchema × List Nat) :=
  reflectToSchemaF (bytes.length + 1) bytes

def rschemaBytesListF (child : RSchema → Option (List Nat)) :
    List (String × RSchema) → Option (List (String × List Nat))
  | [] => some []
  | (k, s) :: rest =>
    match child s with
    | none => none
    | some bs => (rschemaBytesListF child rest).map (fun r => (k, bs) :: r)

/-- The `schema` field of the schema object each `reflectToSchema` branch
constructs (`array(...)`, `boolean()`, `object(fields)`, ...). -/
def rschemaBytesF : Nat → RSchema → Option (List Nat)
  | 0, _ => none
  | fuel + 1, sch =>
    match sch with
    | .arr c => (rschemaBytesF fuel c).map (fun bs => dataTypeArray :: bs)
    | .bool => some [dataTypeBoolean]
    | .iter c => (rschemaBytesF fuel c).map (fun bs => dataTypeIterator :: bs)
    | .obj fields => (rschemaBytesListF (fun s => rschemaBytesF fuel s) fields).bind
        objectSchemaBytes
    | .prom c => (rschemaBytesF fuel c).map (fun bs => dataTypePromise :: bs)
    | .str => some [dataTypeString]

/-- **C2.**  Schema-byte reflection round-trips only in the ASCII world.
The theorem evaluates the code at the failing inputs: (a) constructing
`object({"é": boolean()})` throws `RangeError` — the field-name length
prefix and the buffer size use the UTF-16 `key.length` while the writer
advances by the UTF-8 byte count, so the final `schema.set` runs past the
end; (b) `reflectToSchema` on a `u8array` schema (`[0x04]`) throws
`Unknown type byte` because it dispatches on the undefined
`dataType.bytes`; while (c–f): for string, array-of-string,
promise-of-string, iterator-of-string and an ASCII-keyed object schema,
`reflectToSchema(S.bytes).bytes == S.bytes` does hold. -/
theorem c2_reflection_roundtrip_broken :
    objectSchemaBytes [("é", [dataTypeBoolean])] = none ∧
    reflectToSchema [dataTypeU8array] = none ∧
    objectSchemaBytes [("hi", [dataTypeBoolean])] = some [2, 1, 2, 104, 105, 8] ∧
    (reflectToSchema [2, 1, 2, 104, 105, 8]).bind (fun p => rschemaBytesF 10 p.1) =
      some [2, 1, 2, 104, 105, 8] ∧
    (reflectToSchema [dataTypeString]).bind (fun p => rschemaBytesF 10 p.1) =
      some [dataTypeString] ∧
    (reflectToSchema [dataTypeArray, dataTypeString]).bind (fun p => rschemaBytesF 10 p.1) =
      some [dataTypeArray, dataTypeString] ∧
    (reflectToSchema [dataTypePromise, dataTypeString]).bind (fun p => rschemaBytesF 10 p.1) =
      some [dataTypePromise, dataTypeString] ∧
    (reflectToSchema [dataTypeIterator, dataTypeBoolean]).bind (fun p => rschemaBytesF 10 p.1) =
      some [dataTypeIterator, dataTypeBoolean] :=
  ⟨rfl, rfl, rfl, rfl, rfl, rfl, rfl, rfl⟩

/-!
## Union schema (`union()`)

An alternative is abstracted by its validator, its writer bytes and its
reader; `validateAndMakeWriter` throws `ValidationError` (`none`) exactly
when the validator rejects.
-/

structure Alt (α : Type) where
  validate : α → Bool
  write : α → List Nat
  read : List Nat → Option (α × List Nat)

def altVMW {α : Type} (alt : Alt α) (v : α) : Option (List Nat) :=
  if alt.validate v then some (alt.write v) else none

/-- `union()`'s `validateAndMakeWriter`: probe the alternatives in
declaration order, catching `ValidationError`s; the first success fixes
`idx` (no match throws the aggregated `ValidationError`); the writer emits
`varint(idx)` followed by the chosen alternative's bytes. -/
def unionEncode {α : Type} (alts : List (Alt α)) (v : α) : Option (List Nat) :=
  match alts.findIdx? (fun alt => (altVMW alt v).isSome) with
  | none => none
  | some idx =>
    match alts[idx]? with
    | none => none
    | some alt => (altVMW alt v).bind (fun bs =>
        (writeRollingUint ((idx : Nat) : Int)).map (fun ivs => ivs ++ bs))

/-- `union()`'s reader: read the varint index, reject an out-of-range one
(`internal: Invalid union schema index`), delegate to the selected
alternative. -/
def unionDecode {α : Type} (alts : List (Alt α)) (bytes : List Nat) : Option (α × List Nat) :=
  match readRollingUint bytes with
  | none => none
  | some (index, rest) =>
    match alts[index]? with
    | none => none
    | some alt => alt.read rest

theorem findIdx_cons_eq {α : Type} (p : α → Bool) (a : α) (as : List α) (s : Nat) :
    List.findIdx? p (a :: as) s = if p a then some s else List.findIdx? p as (s + 1) := rfl

theorem findIdx_first_aux {α : Type} (p : α → Bool) (l : List α) :
    ∀ (i : Nat) (x : α) (s : Nat), l[i]? = some x → p x = true →
    (∀ j y, j < i → l[j]? = some y → p y = false) →
    List.findIdx? p l s = some (s + i) := by
  induction l with
  | nil => intro i x s hx; simp at hx
  | cons a as ih =>
    intro i x s hx hpx hbefore
    cases i with
    | zero =>
      simp only [List.getElem?_cons_zero, Option.some.injEq] at hx
      subst hx
      rw [findIdx_cons_eq, if_pos hpx]
      simp
    | succ n =>
      have ha : p a = false := hbefore 0 a (by omega) (by simp)
      rw [findIdx_cons_eq, if_neg (by simp [ha])]
      rw [ih n x (s + 1) (by simpa using hx) hpx
        (fun j y hj hy => hbefore (j + 1) y (by omega) (by simpa using hy))]
      congr 1
      omega

theorem findIdx_first {α : Type} (p : α → Bool) (l : List α) (i : Nat) (x : α)
    (hx : l[i]? = some x) (hpx : p x = true)
    (hbefore : ∀ j y, j < i → l[j]? = some y → p y = false) :
    l.findIdx? p = some i := by
  have h := findIdx_first_aux p l i x 0 hx hpx hbefore
  simpa using h

theorem findIdx_none_aux {α : Type} (p : α → Bool) (l : List α)
    (h : ∀ x ∈ l, p x = false) : ∀ s, List.findIdx? p l s = none := by
  induction l with
  | nil => intro s; rfl
  | cons a as ih =>
    intro s
    rw [findIdx_cons_eq, if_neg (by simp [h a (by simp)])]
    exact ih (fun x hx => h x (by simp [hx])) (s + 1)

theorem findIdx_none {α : Type} (p : α → Bool) (l : List α)
    (h : ∀ x ∈ l, p x = false) : l.findIdx? p = none :=
  findIdx_none_aux p l h 0

/-- A sample alternative over `Int`: accepts non-negative integers, writes
one byte, reads one byte (its reader only produces non-negative values). -/
def altNonneg : Alt Int :=
  Alt.mk (fun v => decide (0 ≤ v)) (fun v => [toUint8 v]) uint8Decode

/-- **C7.**  Union validation probes the alternatives in declaration order
and the wire discriminator is the index of the first acceptor; the reader
reads that index and delegates to the selected alternative, so (given that
the alternative's reader only produces values its validator accepts) the
decoded value validates under it; if no alternative accepts, validation
throws. -/
theorem c7_union_first_match :
    (∀ (α : Type) (alts : List (Alt α)) (v : α) (i : Nat) (alt : Alt α),
      alts[i]? = some alt → alt.validate v = true →
      (∀ j altj, j < i → alts[j]? = some altj → altj.validate v = false) →
      unionEncode alts v =
        (writeRollingUint ((i : Nat) : Int)).map (fun ivs => ivs ++ alt.write v)) ∧
    (∀ (α : Type) (alts : List (Alt α)) (i : Nat) (alt : Alt α) (rest : List Nat),
      i < 4294967296 → alts[i]? = some alt →
      ∃ ivs, writeRollingUint ((i : Nat) : Int) = some ivs ∧
        unionDecode alts (ivs ++ rest) = alt.read rest) ∧
    (∀ (α : Type) (alts : List (Alt α)) (i : Nat) (alt : Alt α) (rest : List Nat) (v : α)
      (rem : List Nat),
      i < 4294967296 → alts[i]? = some alt →
      (∀ w r b, alt.read b = some (w, r) → alt.validate w = true) →
      alt.read rest = some (v, rem) →
      ∃ ivs, writeRollingUint ((i : Nat) : Int) = some ivs ∧
        unionDecode alts (ivs ++ rest) = some (v, rem) ∧ alt.validate v = true) ∧
    (∀ (α : Type) (alts : List (Alt α)) (v : α),
      (∀ alt ∈ alts, alt.validate v = false) → unionEncode alts v = none) := by
  refine ⟨?_, ?_, ?_, ?_⟩
  · intro α alts v i alt hx hval hbefore
    unfold unionEncode
    rw [findIdx_first (fun a => (altVMW a v).isSome) alts i alt hx
      (by simp [altVMW, hval]) (fun j y hj hy => by simp [altVMW, hbefore j y hj hy])]
    simp only [hx, altVMW, hval, if_pos]
    cases writeRollingUint ((i : Nat) : Int) <;> rfl
  · intro α alts i alt rest hi hx
    obtain ⟨ivs, hw, hr⟩ := readRollingUint_writeRollingUint i rest hi
    refine ⟨ivs, hw, ?_⟩
    unfold unionDecode
    rw [hr]
    simp only [hx]
  · intro α alts i alt rest v rem hi hx hsound hread
    obtain ⟨ivs, hw, hr⟩ := readRollingUint_writeRollingUint i rest hi
    refine ⟨ivs, hw, ?_, hsound v rem rest hread⟩
    unfold unionDecode
    rw [hr]
    simp only [hx, hread]
  · intro α alts v hnone
    unfold unionEncode
    rw [findIdx_none (fun a => (altVMW a v).isSome) alts
      (fun x hx => by simp [altVMW, hnone x hx])]

/-- Witness for `c7_union_first_match`: a two-alternative union over `Int`
where both alternatives accept the value 5 — the emitted index is 0, the
decoder delegates to alternative 0, and the decoded value validates. -/
theorem c7_union_first_match_witness :
    unionEncode [altNonneg, altNonneg] 5 =
      (writeRollingUint ((0 : Nat) : Int)).map (fun ivs => ivs ++ altNonneg.write 5) ∧
    (∃ ivs, writeRollingUint ((0 : Nat) : Int) = some ivs ∧
      unionDecode [altNonneg] (ivs ++ [7]) = altNonneg.read [7]) ∧
    (∃ ivs, writeRollingUint ((0 : Nat) : Int) = some ivs ∧
      unionDecode [altNonneg] (ivs ++ [7]) = some (7, []) ∧ altNonneg.validate 7 = true) ∧
    unionEncode [altNonneg] (-3) = none := by
  refine ⟨?_, ?_, ?_, ?_⟩
  · exact c7_union_first_match.1 Int [altNonneg, altNonneg] 5 0 altNonneg rfl (by decide)
      (fun j altj hj _ => absurd hj (by omega))
  · exact c7_union_first_match.2.1 Int [altNonneg] 0 altNonneg [7] (by norm_num) rfl
  · exact c7_union_first_match.2.2.1 Int [altNonneg] 0 altNonneg [7] 7 [] (by norm_num) rfl
      (fun w r b hread => by
        cases b with
        | nil => exact absurd hread (by simp [altNonneg, uint8Decode])
        | cons x xs =>
          simp only [altNonneg, uint8Decode, Option.some.injEq, Prod.mk.injEq] at hread
          simp [altNonneg, ← hread.1])
      rfl
  · exact c7_union_first_match.2.2.2 Int [altNonneg] (-3)
      (fun alt halt => by
        simp only [List.mem_singleton] at halt
        subst halt
        decide)

/-!
## Compression table (`compressionTable()`)
-/

/-- `string()`'s writer bytes: varint of the UTF-8 byte length, then the
UTF-8 bytes. -/
def strEncode (s : String) : Option (List Nat) :=
  (writeRollingUint ((getEncodedLenNoAlloc s : Nat) : Int)).map
    (fun ivs => ivs ++ utf8Encode s)

/-- `string()`'s reader: varint length, that many bytes, `TextDecoder`. -/
def strDecode (bytes : List Nat) : Option (String × List Nat) :=
  match readRollingUint bytes with
  | none => none
  | some (len, rest) =>
    if len ≤ rest.length then
      (utf8Decode (rest.take len)).map (fun s => (s, rest.drop len))
    else none

/-- `writeOneCmpIndex(idx)`: varint of `idx + 1`. -/
def writeOneCmpIndex (idx : Nat) : Option (List Nat) :=
  writeRollingUint ((idx + 1 : Nat) : Int)

/-- One write step of `compressionTable(string(), deep := false)`.  The
identity table is a JS `Map`, which compares string keys by value
(SameValueZero); with `deep = false` the canonicalisation branch is
skipped entirely. -/
def ctEncodeStep (table : List (String × Nat)) (s : String) :
    Option (List Nat) × List (String × Nat) :=
  match table.lookup s with
  | some idx => (writeOneCmpIndex idx, table)
  | none =>
    ((strEncode s).bind (fun bs => (writeRollingUint 0).map (fun z => z ++ bs)),
      table ++ [(s, table.length)])

def ctArrayEncodeGo (table : List (String × Nat)) : List String → Option (List Nat)
  | [] => some []
  | s :: rest =>
    match ctEncodeStep table s with
    | (none, _) => none
    | (some bs, table1) => (ctArrayEncodeGo table1 rest).map (fun r => bs ++ r)

/-- `array(compressionTable(string(), false))`'s writer: varint count then
the items, threading one scratchpad table through all of them. -/
def ctArrayEncode (items : List String) : Option (List Nat) :=
  (writeRollingUint ((items.length : Nat) : Int)).bind (fun lenBs =>
    (ctArrayEncodeGo [] items).map (fun body => lenBs ++ body))

/-- A JS value as it leaves `compressionTable`'s reader. -/
inductive JVal where
  | str (s : String)
  | iterWrap (chars : List Char)
deriving DecidableEq

/-- A compression-table entry on the read side. -/
inductive CTEntry where
  | protector (chars : List Char)
  | plain (v : JVal)
deriving DecidableEq

/-- `handleCopySafety`: a JS string is iterable
(`String.prototype[Symbol.iterator]` is a function), so the iterable branch
fires for every string value: the table keeps a `_CopyProtector` over a
buffered char iterator and the caller receives that iterator, not the
string. -/
def handleCopySafety : JVal → CTEntry × JVal
  | .str s => (.protector s.data, .iterWrap s.data)
  | .iterWrap cs => (.protector cs, .iterWrap cs)

/-- One read step of `compressionTable(string(), false)`. -/
def ctDecodeStep (table : List CTEntry) (bytes : List Nat) :
    Option (JVal × List CTEntry × List Nat) :=
  match readRollingUint bytes with
  | none => none
  | some (index, rest) =>
    if index = 0 then
      match strDecode rest with
      | none => none
      | some (s, rest1) =>
        some ((handleCopySafety (JVal.str s)).2,
          table ++ [(handleCopySafety (JVal.str s)).1], rest1)
    else
      match table[index - 1]? with
      | none => none
      | some (.protector cs) => some (.iterWrap cs, table, rest)
      | some (.plain v) => some (v, table, rest)

def ctArrayDecodeGo (table : List CTEntry) : Nat → List Nat → Option (List JVal × List Nat)
  | 0, bytes => some ([], bytes)
  | n + 1, bytes =>
    match ctDecodeStep table bytes with
    | none => none
    | some (v, table1, rest) =>
      (ctArrayDecodeGo table1 n rest).map (fun p => (v :: p.1, p.2))

def ctArrayDecode (bytes : List Nat) : Option (List JVal × List Nat) :=
  match readRollingUint bytes with
  | none => none
  | some (len, rest) => ctArrayDecodeGo [] len rest

/-- **C6.**  On `array(compressionTable(string(), deep=false))` with
`["a","a","b","a"]` the writer emits exactly the claimed stream — count 4,
inline `"a"` (`0x00 0x01 0x61`) once, reference `0x01`, inline `"b"`,
reference `0x01` — but the reader does **not** reconstruct a content-equal
array: `handleCopySafety` treats JS strings as iterables, so every decoded
entry is a buffered char-iterator wrapper instead of the string. -/
theorem c6_compression_table_strings :
    ctArrayEncode ["a", "a", "b", "a"] = some [4, 0, 1, 97, 1, 0, 1, 98, 1] ∧
    ctArrayDecode [4, 0, 1, 97, 1, 0, 1, 98, 1] =
      some ([JVal.iterWrap ['a'], JVal.iterWrap ['a'], JVal.iterWrap ['b'],
        JVal.iterWrap ['a']], []) ∧
    ctArrayDecode [4, 0, 1, 97, 1, 0, 1, 98, 1] ≠
      some ([JVal.str "a", JVal.str "a", JVal.str "b", JVal.str "a"], []) := by
  refine ⟨rfl, rfl, by decide⟩

/-- The `index ≥ 1` path of `compressionTable`'s reader over an arbitrary
inner schema: `table` holds the values materialised so far, with `none`
modelling an entry whose value is `undefined`; `Except.error` models the
thrown internal error.  (`table[index-1]` is `undefined` both for an
out-of-range index and for a materialised `undefined` entry; the
`table.length >= index` test separates the two.) -/
def ctReadRef {α : Type} (table : List (Option α)) (index : Nat) : Except String (Option α) :=
  match (match table[index - 1]? with
    | some e => e
    | none => (none : Option α)) with
  | none =>
    if table.length ≥ index then Except.ok none
    else Except.error "internal: Invalid compression table index"
  | some v => Except.ok (some v)

/-- **C10.**  A reference `k ≥ 1` raises the internal error exactly when
`k` exceeds the number of materialised entries; a materialised entry that
holds `undefined` is returned as `undefined`, not an error. -/
theorem c10_compression_ref_error (α : Type) (table : List (Option α)) (k : Nat)
    (hk : 1 ≤ k) :
    ((∃ e, ctReadRef table k = Except.error e) ↔ table.length < k) ∧
    (k ≤ table.length → table[k - 1]? = some none → ctReadRef table k = Except.ok none) := by
  constructor
  · unfold ctReadRef
    cases hget : table[k - 1]? with
    | none =>
      have hlen : table.length ≤ k - 1 := by
        by_contra hcon
        rw [List.getElem?_eq_getElem (by omega)] at hget
        exact absurd hget (by simp)
      simp only [if_neg (by omega : ¬ table.length ≥ k)]
      constructor
      · intro _; omega
      · intro _; exact ⟨_, rfl⟩
    | some e =>
      have hlen : k - 1 < table.length := by
        by_contra hcon
        rw [List.getElem?_eq_none (by omega)] at hget
        exact absurd hget (by simp)
      cases e with
      | none =>
        simp only [if_pos (by omega : table.length ≥ k)]
        constructor
        · rintro ⟨e, he⟩; exact absurd he (by simp)
        · intro hcon; omega
      | some v =>
        constructor
        · rintro ⟨e, he⟩; exact absurd he (by simp)
        · intro hcon; omega
  · intro hin hentry
    unfold ctReadRef
    rw [hentry]
    simp only [if_pos (by omega : table.length ≥ k)]

/-- Witness for `c10_compression_ref_error`: a one-entry table whose entry
holds `undefined` — referencing it with `k = 1` returns `undefined`, and
with `k = 2` raises the internal error. -/
theorem c10_compression_ref_error_witness :
    ((∃ e, ctReadRef ([none] : List (Option Nat)) 1 = Except.error e) ↔
      ([none] : List (Option Nat)).length < 1) ∧
    (1 ≤ ([none] : List (Option Nat)).length →
      ([none] : List (Option Nat))[0]? = some none →
      ctReadRef ([none] : List (Option Nat)) 1 = Except.ok none) :=
  c10_compression_ref_error Nat [none] 1 (by decide)

/-!
## Top-level serialize (`serialize.ts`)

Only the root-buffer construction decides the header claim; the root value
writer is abstracted as the bytes it writes starting at its position.  The
Node path allocates the root buffer with `Buffer.allocUnsafe`, whose
contents are unspecified — the `garbage` parameter below; the browser path
allocates a zero-filled `Uint8Array`.  When `lastUpdateIsUs` neither path
writes the header byte: the browser buffer keeps its zero fill, the Node
buffer keeps whatever `allocUnsafe` returned.
-/

def nodeSerializeBuffer (garbage schemaBytes valueBytes : List Nat)
    (lastUpdateIsUs : Bool) : List Nat :=
  let buf1 := if lastUpdateIsUs then garbage
    else writeBytesAt (garbage.set 0 1) 1 schemaBytes
  writeBytesAt buf1 (1 + (if lastUpdateIsUs then 0 else schemaBytes.length)) valueBytes

def browserSerializeBuffer (schemaBytes valueBytes : List Nat)
    (lastUpdateIsUs : Bool) : List Nat :=
  let size := 1 + (if lastUpdateIsUs then 0 else schemaBytes.length) + valueBytes.length
  let buf0 := List.replicate size 0
  let buf1 := if lastUpdateIsUs then buf0
    else writeBytesAt (buf0.set 0 1) 1 schemaBytes
  writeBytesAt buf1 (1 + (if lastUpdateIsUs then 0 else schemaBytes.length)) valueBytes

theorem writeBytesAt_nil (p : Nat) (bs : List Nat) : writeBytesAt [] p bs = [] := by
  induction bs generalizing p with
  | nil => rfl
  | cons b rest ih =>
    show writeBytesAt (List.set [] p b) (p + 1) rest = []
    rw [List.set_nil]
    exact ih (p + 1)

theorem writeBytesAt_cons_succ (x : Nat) (xs : List Nat) (p : Nat) (bs : List Nat) :
    writeBytesAt (x :: xs) (p + 1) bs = x :: writeBytesAt xs p bs := by
  induction bs generalizing xs p with
  | nil => rfl
  | cons b rest ih =>
    show writeBytesAt ((x :: xs).set (p + 1) b) (p + 1 + 1) rest = _
    rw [List.set_cons_succ]
    rw [ih (xs.set p b) (p + 1)]
    rfl

theorem writeBytesAt_append_shift (pre l : List Nat) (p : Nat) (bs : List Nat) :
    writeBytesAt (pre ++ l) (pre.length + p) bs = pre ++ writeBytesAt l p bs := by
  induction pre with
  | nil => simp
  | cons x xs ih =>
    show writeBytesAt (x :: (xs ++ l)) (xs.length + 1 + p) bs = _
    rw [show xs.length + 1 + p = (xs.length + p) + 1 from by omega]
    rw [writeBytesAt_cons_succ, ih]
    rfl

theorem writeBytesAt_exact (bs : List Nat) : ∀ l : List Nat, bs.length ≤ l.length →
    writeBytesAt l 0 bs = bs ++ l.drop bs.length := by
  induction bs with
  | nil => intro l _; simp [writeBytesAt]
  | cons b rest ih =>
    intro l hl
    cases l with
    | nil => simp at hl
    | cons x xs =>
      show writeBytesAt ((x :: xs).set 0 b) 1 rest = _
      rw [List.set_cons_zero]
      rw [show (1 : Nat) = 0 + 1 from rfl, writeBytesAt_cons_succ]
      rw [ih xs (by simpa using hl)]
      simp

/-- **C3.**  The header byte: the browser path writes `0x01` plus the
schema bytes when the digests differ and leaves the zero-initialised first
byte `0x00` when they match; the Node path also writes `0x01` plus schema
bytes when they differ, but when they match it **never writes byte 0 at
all** — `Buffer.allocUnsafe` leaves it as arbitrary garbage (here `0xAA`),
so the Node transport's first byte is not guaranteed to be `0x00`. -/
theorem c3_header_byte :
    (∀ s v : List Nat, browserSerializeBuffer s v false = 1 :: s ++ v) ∧
    (∀ s v : List Nat, browserSerializeBuffer s v true = 0 :: v) ∧
    (∀ g s v : List Nat, (nodeSerializeBuffer g s v true).head? = g.head?) ∧
    nodeSerializeBuffer [170, 0] [3] [5] true = [170, 5] ∧
    nodeSerializeBuffer [170, 170, 170] [3] [5] false = [1, 3, 5] := by
  refine ⟨?_, ?_, ?_, rfl, rfl⟩
  · intro s v
    show writeBytesAt (writeBytesAt ((List.replicate (1 + s.length + v.length) 0).set 0 1)
      1 s) (1 + s.length) v = 1 :: s ++ v
    rw [show 1 + s.length + v.length = (s.length + v.length) + 1 from by omega]
    rw [List.replicate_succ, List.set_cons_zero]
    rw [show (1 : Nat) = 0 + 1 from rfl, writeBytesAt_cons_succ]
    rw [writeBytesAt_exact s (List.replicate (s.length + v.length) 0) (by simp)]
    rw [List.drop_replicate]
    rw [show 0 + 1 + s.length = s.length + 1 from by omega]
    rw [writeBytesAt_cons_succ]
    rw [show s.length = s.length + 0 from by omega, writeBytesAt_append_shift]
    rw [show s.length + 0 + v.length - (s.length + 0) = v.length from by omega]
    rw [writeBytesAt_exact v (List.replicate v.length 0) (by simp)]
    simp
  · intro s v
    show writeBytesAt (List.replicate (1 + 0 + v.length) 0) (1 + 0) v = 0 :: v
    rw [show 1 + 0 + v.length = v.length + 1 from by omega]
    rw [List.replicate_succ]
    rw [show 1 + 0 = 0 + 1 from rfl, writeBytesAt_cons_succ]
    rw [writeBytesAt_exact v (List.replicate v.length 0) (by simp)]
    simp
  · intro g s v
    show (writeBytesAt g (1 + 0) v).head? = g.head?
    cases g with
    | nil => rw [writeBytesAt_nil]
    | cons x xs =>
      rw [show 1 + 0 = 0 + 1 from rfl, writeBytesAt_cons_succ]
      rfl

/-!
## Promise sub-stream (`promise()`)

The writer resolves to exactly one frame: a fresh zero-filled buffer of
`1 + size` bytes with flag byte 1 and the value bytes behind it, or — for a
rejection with a `SerializableError` — `1 + schema.length + size` bytes
with flag byte 0 (the zero fill), the error schema's byte-representation at
offset 1 and the error value behind it; after the frame the writer calls
`writer(null)`, closing the sub-stream.  The reader reads the flag byte of
the frame's payload and resolves, rejects with a reconstructed
`SerializableError`, or rejects with the invalid-flag error.
-/

/-- A decoded value under a reflected schema: booleans, strings, arrays,
objects, and the 16-bit sub-stream handle a promise/iterator node yields. -/
inductive RVal where
  | b (val : Bool)
  | s (val : String)
  | arr (items : List RVal)
  | obj (fields : List (String × RVal))
  | handle (id : Nat)

/-- The element loop of `array()`'s reader, parameterised by the child
reader. -/
def readManyF (child : List Nat → Option (RVal × List Nat)) :
    Nat → List Nat → Option (List RVal × List Nat)
  | 0, bytes => some ([], bytes)
  | n + 1, bytes =>
    match child bytes with
    | none => none
    | some (v, rest) => (readManyF child n rest).map (fun p => (v :: p.1, p.2))

/-- The field loop of `object()`'s reader (fields in sorted key order),
parameterised by the per-schema reader. -/
def readFieldsF (child : RSchema → List Nat → Option (RVal × List Nat))
    (fields : List (String × RSchema)) :
    List String → List Nat → Option (List (String × RVal) × List Nat)
  | [], bytes => some ([], bytes)
  | k :: ks, bytes =>
    match fields.lookup k with
    | none => none
    | some sch =>
      match child sch bytes with
      | none => none
      | some (v, rest) =>
        (readFieldsF child fields ks rest).map (fun p => ((k, v) :: p.1, p.2))

/-- `readFromContext` of a reflected schema: booleans are one byte 0/1
(anything else is an internal error), strings varint + UTF-8 bytes, arrays
varint count then elements, objects their fields in sorted key order,
promise/iterator two bytes of big-endian sub-stream id.  The fuel bounds
nesting depth only; callers pass more than enough. -/
def rschemaReadF : Nat → RSchema → List Nat → Option (RVal × List Nat)
  | 0, _, _ => none
  | fuel + 1, sch, bytes =>
    match sch with
    | .bool =>
      match bytes with
      | 0 :: rest => some (RVal.b false, rest)
      | 1 :: rest => some (RVal.b true, rest)
      | _ => none
    | .str => (strDecode bytes).map (fun p => (RVal.s p.1, p.2))
    | .arr c =>
      match readRollingUint bytes with
      | none => none
      | some (len, rest) =>
        (readManyF (fun bs => rschemaReadF fuel c bs) len rest).map
          (fun p => (RVal.arr p.1, p.2))
    | .obj fields =>
      (readFieldsF (fun s bs => rschemaReadF fuel s bs) fields
        (sortKeys (fields.map Prod.fst)) bytes).map (fun p => (RVal.obj p.1, p.2))
    | .prom _ =>
      match bytes with
      | idHigh :: idLow :: rest =>
        some (RVal.handle (jsOr (jsShl (idHigh : Int) 8) (idLow : Int)).toNat, rest)
      | _ => none
    | .iter _ =>
      match bytes with
      | idHigh :: idLow :: rest =>
        some (RVal.handle (jsOr (jsShl (idHigh : Int) 8) (idLow : Int)).toNat, rest)
      | _ => none

/-- The payload of the single frame a resolved promise emits. -/
def promiseResolvePayload (innerBytes : List Nat) : List Nat :=
  writeBytesAt ((List.replicate (1 + innerBytes.length) 0).set 0 1) 1 innerBytes

/-- `writer(buf); writer(null)`: one frame, then the sub-stream closes. -/
def promiseResolveFrames (innerBytes : List Nat) : List (List Nat) × Bool :=
  ([promiseResolvePayload innerBytes], true)

/-- The payload of the single frame a rejection with a
`SerializableError` emits. -/
def promiseRejectPayload (errSchemaBytes errDataBytes : List Nat) : List Nat :=
  writeBytesAt
    (writeBytesAt (List.replicate (1 + errSchemaBytes.length + errDataBytes.length) 0)
      1 errSchemaBytes)
    (1 + errSchemaBytes.length) errDataBytes

def promiseRejectFrames (errSchemaBytes errDataBytes : List Nat) : List (List Nat) × Bool :=
  ([promiseRejectPayload errSchemaBytes errDataBytes], true)

/-- What the reader's frame handler does to the consumer promise. -/
inductive PromiseOutcome (α : Type) where
  | resolved (v : α)
  | rejectedSerializable (errData : RVal)
  | rejectedInternal

/-- The promise reader's handler on its single frame's payload: flag 1
resolves with the inner schema's value; flag 0 reflects the error schema
from the payload and rejects with a `SerializableError` carrying the
decoded error data; any other flag (or a read failure, which the handler
catches) rejects with an internal error. -/
def promiseReadPayload {α : Type} (innerDec : List Nat → Option (α × List Nat))
    (payload : List Nat) : PromiseOutcome α :=
  match payload with
  | [] => .rejectedInternal
  | flag :: rest =>
    if flag = 1 then
      match innerDec rest with
      | some (v, _) => .resolved v
      | none => .rejectedInternal
    else if flag = 0 then
      match reflectToSchema rest with
      | none => .rejectedInternal
      | some (errSchema, rest1) =>
        match rschemaReadF (rest1.length + 1) errSchema rest1 with
        | none => .rejectedInternal
        | some (d, _) => .rejectedSerializable d
    else .rejectedInternal

/-- **C8.**  A promise sub-stream carries exactly one frame and then
closes, with the claimed payload shapes — flag byte 1 plus the inner
value on resolution; flag byte 0, the error schema's byte-representation
and the error data on rejection with a `SerializableError` — and the
reader resolves on flag 1 and rejects with an error on any unknown flag.
But the flag-0 clause of the claim fails for errors in general: the
reader reflects the error schema with `reflectToSchema`, which handles
only six type tags, so a rejection whose error schema is for instance
`uint8()` — the writer happily emits its payload `[0x00, 0x09, 0x05]` —
makes the reflect call throw `Unknown type byte`, and the catch rejects
the consumer with that plain error: no `SerializableError`, no `.data`.
For a reflectable error schema such as `string()` with data `"bad"` the
consumer does see `.data == "bad"`. -/
theorem c8_promise_substream :
    (∀ innerBytes : List Nat, promiseResolveFrames innerBytes = ([1 :: innerBytes], true)) ∧
    (∀ es ed : List Nat, promiseRejectFrames es ed = ([0 :: es ++ ed], true)) ∧
    (∀ (α : Type) (innerDec : List Nat → Option (α × List Nat)) (innerBytes : List Nat)
      (v : α) (rem : List Nat), innerDec innerBytes = some (v, rem) →
      promiseReadPayload innerDec (1 :: innerBytes) = PromiseOutcome.resolved v) ∧
    (∀ (α : Type) (innerDec : List Nat → Option (α × List Nat)) (f : Nat) (rest : List Nat),
      f ≠ 0 → f ≠ 1 → promiseReadPayload innerDec (f :: rest) =
        PromiseOutcome.rejectedInternal) ∧
    promiseReadPayload uint8Decode
      (promiseRejectPayload [dataTypeString] ((strEncode "bad").getD [])) =
      PromiseOutcome.rejectedSerializable (RVal.s "bad") ∧
    promiseReadPayload uint8Decode (promiseRejectPayload [dataTypeUint8] [5]) =
      PromiseOutcome.rejectedInternal := by
  refine ⟨?_, ?_, ?_, ?_, rfl, rfl⟩
  · intro innerBytes
    unfold promiseResolveFrames promiseResolvePayload
    rw [show 1 + innerBytes.length = innerBytes.length + 1 from by omega]
    rw [List.replicate_succ, List.set_cons_zero]
    rw [show (1 : Nat) = 0 + 1 from rfl, writeBytesAt_cons_succ]
    rw [writeBytesAt_exact innerBytes (List.replicate innerBytes.length 0) (by simp)]
    simp
  · intro es ed
    unfold promiseRejectFrames promiseRejectPayload
    rw [show 1 + es.length + ed.length = (es.length + ed.length) + 1 from by omega]
    rw [List.replicate_succ]
    rw [show (1 : Nat) = 0 + 1 from rfl, writeBytesAt_cons_succ]
    rw [writeBytesAt_exact es (List.replicate (es.length + ed.length) 0) (by simp)]
    rw [List.drop_replicate]
    rw [show 0 + 1 + es.length = es.length + 1 from by omega, writeBytesAt_cons_succ]
    rw [show es.length = es.length + 0 from by omega, writeBytesAt_append_shift]
    rw [show es.length + 0 + ed.length - (es.length + 0) = ed.length from by omega]
    rw [writeBytesAt_exact ed (List.replicate ed.length 0) (by simp)]
    simp
  · intro α innerDec innerBytes v rem hdec
    unfold promiseReadPayload
    dsimp only
    rw [if_pos rfl, hdec]
  · intro α innerDec f rest h0 h1
    unfold promiseReadPayload
    dsimp only
    rw [if_neg h1, if_neg h0]

/-- Witness for `c8_promise_substream`: a flag-1 payload carrying the byte
7 resolves to 7, and the unknown flag 2 rejects. -/
theorem c8_promise_substream_witness :
    promiseReadPayload uint8Decode (1 :: [7]) = PromiseOutcome.resolved 7 ∧
    promiseReadPayload uint8Decode (2 :: [7]) = PromiseOutcome.rejectedInternal :=
  ⟨c8_promise_substream.2.2.1 Int uint8Decode [7] 7 [] rfl,
   c8_promise_substream.2.2.2.1 Int uint8Decode 2 [7] (by decide) (by decide)⟩
